import Mathlib

/- Verification of the gssnng per-cell gene-set scoring core
   (src/gssnng/scoring.py and src/gssnng/score_cells.py).

   Conventions of the embedding:
   * machine floats carrying possibly-NaN statistics are modelled as
     `Option ℚ`, with `none` standing for NaN; arithmetic on them
     propagates `none` exactly as IEEE NaN propagates;
   * Python functions that can raise are modelled in `Except String`;
   * pandas data frames are association lists / parallel lists;
   * external collaborators that live outside src/ (nn_smoothing,
     scorefun, error_checking) are passed in as parameters, so every
     theorem quantifies over all of their implementations;
   * `si.normalisation` (gssnng/util.py, also outside src/) is modelled
     from the spec, see its doc comment. -/

namespace Gssnng

abbrev Gene := String
abbrev Barcode := String

/-- One row of `adata.obs`: the cell barcode (its index entry) plus the
categorical label columns, as an association list column-name ↦ value. -/
structure ObsRow where
  barcode : Barcode
  labels : List (String × String)
deriving DecidableEq

/-- Value of column `col` for this row (`adata.obs[col]` at this row).
Theorems about grouping restrict to inputs where the column is present
in every row, matching pandas (a missing column raises KeyError there). -/
def ObsRow.label (o : ObsRow) (col : String) : String :=
  (o.labels.lookup col).getD ""

/-- The AnnData container: expression matrix `X` (cells × genes), cell
metadata `obs` (one row per matrix row), gene names `var` (var.index). -/
structure AnnData where
  X : List (List ℚ)
  obs : List ObsRow
  var : List Gene
deriving DecidableEq

/-- pandas `Series.rank(method='min', ascending=b)`: every value receives
1 + the number of values strictly before it in the requested order, so
tied values all receive the lowest rank of their tie group. -/
def rankMin (ascending : Bool) (l : List ℚ) : List ℚ :=
  l.map (fun v =>
    1 + ((l.filter (fun w => if ascending then decide (w < v) else decide (v < w))).length : ℚ))

/-- numpy `mean`: NaN (modelled as `none`) on an empty list, else the mean. -/
def npMean (l : List ℚ) : Option ℚ :=
  if l.isEmpty then none else some (l.sum / (l.length : ℚ))

/-- numpy `median`: NaN (`none`) on an empty list; otherwise the middle
element of the sorted list, or the mean of the two middle elements. -/
def npMedian (l : List ℚ) : Option ℚ :=
  if l.isEmpty then none
  else
    let s := l.mergeSort (fun a b => decide (a ≤ b))
    if s.length % 2 = 1 then some (s.getD (s.length / 2) 0)
    else some ((s.getD (s.length / 2 - 1) 0 + s.getD (s.length / 2) 0) / 2)

/-- `statsmodels.robust.scale.mad` with its default centering (the
median): the median of absolute deviations from the median, divided by
the library's fixed positive consistency constant (≈ the 0.75 normal
quantile). The constant is threaded through as the parameter `c`, so
every theorem below holds in particular for the library's exact value.
The empty list gives NaN (`none`), as numpy's median of nothing is NaN. -/
def scale_mad (c : ℚ) (l : List ℚ) : Option ℚ :=
  (npMedian l).bind (fun m => (npMedian (l.map (fun x => |x - m|))).map (fun d => d / c))

/-- Modelled from the spec: `si.normalisation` (gssnng/util.py, which is
not under src/). Spec §4.4 step 3: normalize the raw mean rank by a
method parameterized by the library size (number of genes observed in
the cell), the collected rank values, the raw mean score and the
effective signature length; "standard" is the theoretical min/max
rank-sum normalization. The theoretical minimum mean rank of a
signature of length s among n ranked genes is (s+1)/2 and the maximum
is (2n-s+1)/2, giving (score - (s+1)/2) / (n - s). NaN propagates. -/
def normalisation (norm_method : String) (library_len : Nat)
    (_score_list : List ℚ) (score : Option ℚ) (sig_len : Int) : Option ℚ :=
  if norm_method = "standard" then
    score.map (fun s => (s - ((sig_len : ℚ) + 1) / 2) / ((library_len : ℚ) - (sig_len : ℚ)))
  else
    score

/-- The dict returned by `_ms_sing`: keys `total_score` and `mad_up`.
Values are `Option ℚ`, `none` modelling numpy NaN. -/
structure MsSing where
  total_score : Option ℚ
  mad_up : Option ℚ
deriving DecidableEq

/-- The accumulation loop of `_ms_sing` (scoring.py lines 82-96): walk
the gene set in order; a member found in the ranked index appends its
rank value to `su`, a missing member decrements the effective signature
length (`sig_len_up`). -/
def msSingLoop (up_sort : List (Gene × ℚ)) : List Gene → List ℚ → Int → List ℚ × Int
  | [], su, sig_len => (su, sig_len)
  | j :: rest, su, sig_len =>
    match up_sort.lookup j with
    | some r => msSingLoop up_sort rest (su ++ [r]) sig_len
    | none => msSingLoop up_sort rest su (sig_len - 1)

/-- scoring.py `_ms_sing` (lines 64-108): rank the cell's expression
series with the "min" tie rule (ascending iff `rankup`), collect the
ranks of the gene-set members present in the index, take their mean,
normalise it, subtract 0.5, and return it with the scaled MAD of the
collected ranks. `x` is the series (gene, nonzero count); `c` is the
statsmodels MAD consistency constant. -/
def _ms_sing (c : ℚ) (geneset : List Gene) (x : List (Gene × ℚ))
    (norm_method : String) (rankup : Bool) : MsSing :=
  let up_sort : List (Gene × ℚ) := (x.map Prod.fst).zip (rankMin rankup (x.map Prod.snd))
  let p := msSingLoop up_sort geneset [] (geneset.length : Int)
  let score_up := npMean p.1
  let norm_up := normalisation norm_method x.length p.1 score_up p.2
  { total_score := norm_up.map (fun v => v - 1/2),
    mad_up := scale_mad c p.1 }

/-- float addition on possibly-NaN values: NaN propagates. -/
def optAdd : Option ℚ → Option ℚ → Option ℚ
  | some a, some b => some (a + b)
  | _, _ => none

/-- scoring.py lines 134-148, the up/down dispatch inside
`_score_all_cells_at_once`, returning the Python dict as an association
list in insertion order. For a down-only set, `s['mad_down'] =
s.pop('mad_up')` removes `mad_up` and appends `mad_down`. When neither
set is supplied the source's `else` branch still runs and
`_ms_sing(None, ...)` raises on `len(None)`. -/
def handle_up_down (c : ℚ) (gene_set_up gene_set_down : Option (List Gene))
    (counts : List (Gene × ℚ)) : Except String (List (String × Option ℚ)) :=
  match gene_set_up, gene_set_down with
  | some gu, none =>
    let s := _ms_sing c gu counts "standard" true
    .ok [("total_score", s.total_score), ("mad_up", s.mad_up)]
  | none, some gd =>
    let s := _ms_sing c gd counts "standard" false
    .ok [("total_score", s.total_score), ("mad_down", s.mad_up)]
  | some gu, some gd =>
    let s_up := _ms_sing c gu counts "standard" true
    let s_down := _ms_sing c gd counts "standard" false
    .ok [("total_score", optAdd s_up.total_score s_down.total_score),
         ("mad_up", s_up.mad_up),
         ("mad_down", s_down.mad_up),
         ("up_score", s_up.total_score),
         ("dn_score", s_down.total_score)]
  | none, none => .error "TypeError: object of type NoneType has no len"

/-- One cell's nonzero expression pairs: scipy `sparse.find` on row
`cell_ix` of X gives the indices `gdx` of the nonzero entries, and the
one-column frame is indexed by `var.index[gdx]` — i.e. the (gene, count)
pairs with nonzero count, in column order. -/
def cellCounts (sm : AnnData) (cell_ix : Nat) : List (Gene × ℚ) :=
  (sm.var.zip (sm.X.getD cell_ix [])).filter (fun p => decide (p.2 ≠ 0))

/-- The per-cell loop of `_score_all_cells_at_once` (scoring.py lines
116-150) with the running cell index explicit. Each cell's dict is
paired with its barcode (the `CB` entry of line 149, kept apart for
typing). The noise branch (line 127-129) raises before any scoring. -/
def scoreCellsLoop (c : ℚ) (gsu gsd : Option (List Gene)) (sm : AnnData)
    (noise_trials : Int) (mode : String) :
    Nat → List ObsRow → Except String (List (List (String × Option ℚ) × Barcode))
  | _, [] => .ok []
  | cell_ix, o :: rest =>
    let counts := cellCounts sm cell_ix
    if mode = "average" ∧ 0 < noise_trials then
      .error "ValueError: not implemented"
    else
      match handle_up_down c gsu gsd counts with
      | .error e => .error e
      | .ok s =>
        match scoreCellsLoop c gsu gsd sm noise_trials mode (cell_ix + 1) rest with
        | .error e => .error e
        | .ok rs => .ok ((s, o.barcode) :: rs)

/-- scoring.py `_score_all_cells_at_once` (lines 111-151): run the
per-cell loop over all cells of the smoothed AnnData. -/
def _score_all_cells_at_once (c : ℚ) (gene_set_up gene_set_down : Option (List Gene))
    (smoothed_adata : AnnData) (noise_trials : Int) (mode : String) :
    Except String (List (List (String × Option ℚ) × Barcode)) :=
  scoreCellsLoop c gene_set_up gene_set_down smoothed_adata noise_trials mode 0
    smoothed_adata.obs

/-- `_smooth_out` (score_cells.py 67-72) and scoring.py 47-49: the
smoothed matrix comes from the external collaborator `nn_smoothing`
(gssnng/smoothing.py, out of scope per spec §1/§4.2), passed here as
the parameter `smooth` (with `samp_neighbors` folded into its closure);
the result is wrapped in an AnnData carrying the ORIGINAL obs and var. -/
def _smooth_out (smooth : List (List ℚ) → List (List ℚ)) (adata : AnnData) : AnnData :=
  { X := smooth adata.X, obs := adata.obs, var := adata.var }

/-- The Python values `score_cells` can return, as a tagged sum: the
empty tuple from `return()`, Python None, a bare string (the sentinel
style of the other entry point), or the list of score records. -/
inductive ScoreCellsOut where
  | emptyTuple
  | pynone
  | strval : String → ScoreCellsOut
  | scores : List (List (String × Option ℚ) × Barcode) → ScoreCellsOut
deriving DecidableEq

/-- Final state of `adata.obs` after `score_cells`: untouched, or with
the `key_added` column appended (values are the `total_score` dict
lookups; the outer `Option` is dict-key presence, the inner one NaN). -/
inductive ScObs where
  | plain : List ObsRow → ScObs
  | added : List ObsRow → String → List (Option (Option ℚ)) → ScObs
deriving DecidableEq

/-- scoring.py `score_cells` (lines 15-61). `error_checking`
(gssnng/util.py, not under src/) is the external validation
collaborator of spec §6; only its result string `check` matters here.
The second component of the pair is the final state of `adata.obs`
(state passing for the Python mutation at line 60). -/
def score_cells (c : ℚ) (check : String) (smooth : List (List ℚ) → List (List ℚ))
    (adata : AnnData) (gene_set_up gene_set_down : Option (List Gene))
    (key_added : String) (noise_trials : Int) (mode : String) :
    Except String ScoreCellsOut × ScObs :=
  if check = "ERROR" then
    (.ok .emptyTuple, .plain adata.obs)
  else
    let smoothed_adata := _smooth_out smooth adata
    match _score_all_cells_at_once c gene_set_up gene_set_down smoothed_adata
        noise_trials mode with
    | .error e => (.error e, .plain adata.obs)
    | .ok all_scores =>
      (.ok (.scores all_scores),
       .added adata.obs key_added (all_scores.map (fun r => r.1.lookup "total_score")))

/-- numpy `max` over a pandas Series (`np.max(df['uprank'])`): NaN
(`none`) for an empty series, else the maximum. -/
def seriesMax : List ℚ → Option ℚ
  | [] => none
  | a :: as => some (as.foldl max a)

/-- The one-cell data frame built by `_get_cell_data`: the nonzero
(gene, count) pairs (columns `index`/`counts`), plus the rank columns
when they were added (`none` = column absent). -/
structure CellDF where
  index : List Gene
  counts : List ℚ
  uprank : Option (List ℚ)
  dnrank : Option (List ℚ)
deriving DecidableEq

/-- score_cells.py `_get_cell_data` (lines 141-182): extract the nonzero
expression of one cell; raise `not implemented` when the noise-injection
configuration is requested (line 170-172); when `ranked`, add the
ascending min-rank column and the descending column
`np.max(df['uprank']) - df['uprank']` (for an empty frame both rank
columns are empty and the NaN from `np.max` is never placed anywhere,
hence the `match` on `seriesMax`). -/
def _get_cell_data (smoothed_adata : AnnData) (cell_ix : Nat) (noise_trials : Int)
    (method_params : List (String × String)) (ranked : Bool) : Except String CellDF :=
  let pairs := cellCounts smoothed_adata cell_ix
  if method_params.lookup "normalization" = some "average" ∧ 0 < noise_trials then
    .error "ValueError: not implemented"
  else
    if ranked then
      let ur := rankMin true (pairs.map Prod.snd)
      let dr := match seriesMax ur with
        | none => []
        | some m => ur.map (fun r => m - r)
      .ok { index := pairs.map Prod.fst, counts := pairs.map Prod.snd,
            uprank := some ur, dnrank := some dr }
    else
      .ok { index := pairs.map Prod.fst, counts := pairs.map Prod.snd,
            uprank := none, dnrank := none }

/-- A gene set parsed by the external `genesets` collaborator
(gssnng/gene_sets.py, outside src/): a name and its member identifiers. -/
structure GeneSet where
  name : String
  genes : List Gene
deriving DecidableEq

/-- A per-group result frame (`results_df`): one row per cell, indexed by
barcode, one column per gene set. The per-set score values come from the
external `scorefun` (gssnng/score_funs.py, outside src/), so they are an
arbitrary `ℚ` here. -/
abbrev ScoreDF := List (Barcode × List (String × ℚ))

/-- The type of the external `scorefun` collaborator: gene set, one-cell
frame, score method, method params, ranked flag ↦ score value. -/
abbrev ScoreFun := GeneSet → CellDF → String → List (String × String) → Bool → ℚ

/-- The per-cell loop of `_score_all_cells_all_sets` (score_cells.py
lines 211-217), cell index explicit: build the cell frame (which may
raise), then one column per gene set via `scorefun`. -/
def scoreSetsLoop (scorefun : ScoreFun) (sm : AnnData) (gs : List GeneSet)
    (score_method : String) (method_params : List (String × String))
    (noise_trials : Int) (ranked : Bool) :
    Nat → List ObsRow → Except String ScoreDF
  | _, [] => .ok []
  | cell_ix, o :: rest =>
    match _get_cell_data sm cell_ix noise_trials method_params ranked with
    | .error e => .error e
    | .ok df_cell =>
      match scoreSetsLoop scorefun sm gs score_method method_params noise_trials
          ranked (cell_ix + 1) rest with
      | .error e => .error e
      | .ok rs =>
        .ok ((o.barcode,
              gs.map (fun g => (g.name, scorefun g df_cell score_method method_params ranked)))
             :: rs)

/-- score_cells.py `_score_all_cells_all_sets` (lines 185-219): score
every cell of a (smoothed) group against every gene set; the result
frame has the group's barcodes as index, in cell order. -/
def _score_all_cells_all_sets (scorefun : ScoreFun) (smoothed_adata : AnnData)
    (gene_set_obj : List GeneSet) (score_method : String)
    (method_params : List (String × String)) (noise_trials : Int) (ranked : Bool) :
    Except String ScoreDF :=
  scoreSetsLoop scorefun smoothed_adata gene_set_obj score_method method_params
    noise_trials ranked 0 smoothed_adata.obs

/-- `adata[adata.obs[groupby] == ci]` (score_cells.py line 119): the
boolean-mask subset keeping the cells whose `col` label equals `ci`,
with X and obs filtered in step and var untouched. -/
def adSubset (adata : AnnData) (col : String) (ci : String) : AnnData :=
  { X := ((adata.X.zip adata.obs).filter (fun p => decide (p.2.label col = ci))).map Prod.fst,
    obs := adata.obs.filter (fun o => decide (o.label col = ci)),
    var := adata.var }

/-- The Group Partitioner of `_proc_data`'s string branch (score_cells.py
lines 115-125): `cats = set(adata.obs[groupby])` — the distinct values
of the grouping column — and, for each category, the boolean-mask
sub-population paired with its label. (Python's set order is
unspecified; `dedup` order is one representative; spec §4.1 says callers
must not rely on the order.) -/
def groupby_groups (adata : AnnData) (col : String) : List (AnnData × String) :=
  ((adata.obs.map (fun o => o.label col)).dedup).map (fun ci => (adSubset adata col ci, ci))

/-- The duck-typed grouping directive of `with_gene_sets`/`_proc_data`. -/
inductive GroupBy where
  | nogroup
  | str : String → GroupBy
  | list : List String → GroupBy
  | dict : List (String × Int) → GroupBy
deriving DecidableEq

/-- What `_proc_data` can hand back without raising: a bare string
sentinel, or the concatenated score frame. -/
inductive ProcOut where
  | sentinel : String → ProcOut
  | table : ScoreDF → ProcOut
deriving DecidableEq

/-- The dispatch loop over the per-group tasks (score_cells.py lines
117-125 build `data_list`; lines 134-135 run it in the Pool;
`starmap_async(...).get()` keeps submission order and re-raises a worker
error, aborting the whole call — spec §4.5's aggregate failure
semantics). Each task smooths its sub-population and scores it. -/
def procGroupsLoop (scorefun : ScoreFun) (smooth : List (List ℚ) → List (List ℚ))
    (gs : List GeneSet) (score_method : String)
    (method_params : List (String × String)) (noise_trials : Int) (ranked : Bool) :
    List (AnnData × String) → Except String (List ScoreDF)
  | [] => .ok []
  | (qi, _ci) :: rest =>
    match _score_all_cells_all_sets scorefun (_smooth_out smooth qi) gs score_method
        method_params noise_trials ranked with
    | .error e => .error e
    | .ok t =>
      match procGroupsLoop scorefun smooth gs score_method method_params noise_trials
          ranked rest with
      | .error e => .error e
      | .ok ts => .ok (t :: ts)

/-- score_cells.py `_proc_data` (lines 75-138). Branches:
* `groupby is None`: one task over all cells (label `single_group`);
  `pd.concat` of that singleton list is the table itself;
* a string: one task per distinct category (the Group Partitioner);
  `pd.concat` raises `ValueError` when the task list is empty (no cells);
* a list: `return("ERROR")` — the bare string sentinel (line 129);
* a dict: the source guard is `type(groupby) == \x7b'a':1,'b':2\x7d`,
  comparing the type object `dict` with a dict VALUE — always False — so
  no branch fires, `data_list` stays empty, and `pd.concat([])` raises
  `ValueError: No objects to concatenate` (the line-132 sentinel is
  unreachable).
`recompute_neighbors`/`cores` only touch the external neighbor graph
and the pool width, not the scores, so they are not modelled. -/
def _proc_data (scorefun : ScoreFun) (smooth : List (List ℚ) → List (List ℚ))
    (adata : AnnData) (gs : List GeneSet) (groupby : GroupBy) (score_method : String)
    (method_params : List (String × String)) (noise_trials : Int) (ranked : Bool) :
    Except String ProcOut :=
  match groupby with
  | .nogroup =>
    match _score_all_cells_all_sets scorefun (_smooth_out smooth adata) gs score_method
        method_params noise_trials ranked with
    | .error e => .error e
    | .ok t => .ok (.table t)
  | .str col =>
    match procGroupsLoop scorefun smooth gs score_method method_params noise_trials
        ranked (groupby_groups adata col) with
    | .error e => .error e
    | .ok ts =>
      if ts.isEmpty then .error "ValueError: No objects to concatenate"
      else .ok (.table ts.flatten)
  | .list _ => .ok (.sentinel "ERROR")
  | .dict _ => .error "ValueError: No objects to concatenate"

/-- pandas `obs.join(scores, how='left')` on the index: every obs row is
kept; a row with matching score rows is repeated once per match, a row
with none keeps empty score fields (`none`). -/
def leftJoin (obs : List ObsRow) (scores : ScoreDF) :
    List (ObsRow × Option (List (String × ℚ))) :=
  obs.flatMap (fun o =>
    match scores.filter (fun r => decide (r.1 = o.barcode)) with
    | [] => [(o, none)]
    | ms => ms.map (fun r => (o, some r.2)))

/-- The value `with_gene_sets` can return: the bare validation sentinel
string, or the AnnData whose obs now carries the joined score table. -/
inductive WGSRes where
  | strval : String → WGSRes
  | scored : List (ObsRow × Option (List (String × ℚ))) → WGSRes
deriving DecidableEq

/-- Final state of `adata.obs` after `with_gene_sets`: untouched, or
replaced by the joined table (the line-61 assignment). -/
inductive WgsObs where
  | plain : List ObsRow → WgsObs
  | joined : List (ObsRow × Option (List (String × ℚ))) → WgsObs
deriving DecidableEq

/-- score_cells.py `with_gene_sets` (lines 15-64). `check` is the result
of the external `error_checking` collaborator (called line 53); on
"ERROR" the call returns the bare sentinel before any work. Otherwise
line 61 runs `adata.obs.join(all_scores, how='left')`: when `_proc_data`
returned a bare string, `join` receives a `str` — not a DataFrame or
Series — and pandas raises while treating it as an iterable of frames,
so the call throws and obs is never reassigned. The pair's second
component is the final state of `adata.obs`. -/
def with_gene_sets (scorefun : ScoreFun) (smooth : List (List ℚ) → List (List ℚ))
    (check : String) (adata : AnnData) (gs : List GeneSet) (groupby : GroupBy)
    (score_method : String) (method_params : List (String × String))
    (noise_trials : Int) (ranked : Bool) : Except String WGSRes × WgsObs :=
  if check = "ERROR" then
    (.ok (.strval "ERROR"), .plain adata.obs)
  else
    match _proc_data scorefun smooth adata gs groupby score_method method_params
        noise_trials ranked with
    | .error e => (.error e, .plain adata.obs)
    | .ok (.sentinel _) =>
      (.error "AttributeError: join expects DataFrame-likes, got str", .plain adata.obs)
    | .ok (.table t) =>
      (.ok (.scored (leftJoin adata.obs t)), .joined (leftJoin adata.obs t))

/-! ## Helper lemmas -/

/-- Characterization of the `_ms_sing` accumulation loop: the collected
ranks are the looked-up ranks of the present members (in gene-set
order), and the effective length drops by one per absent member. -/
theorem msSingLoop_eq (up_sort : List (Gene × ℚ)) (gs : List Gene)
    (su : List ℚ) (sig_len : Int) :
    msSingLoop up_sort gs su sig_len
      = (su ++ gs.filterMap (fun j => up_sort.lookup j),
         sig_len - ((gs.filter (fun j => (up_sort.lookup j).isNone)).length : Int)) := by
  induction gs generalizing su sig_len with
  | nil => simp [msSingLoop]
  | cons j rest ih =>
    cases hj : up_sort.lookup j with
    | some r =>
      simp only [msSingLoop, hj, ih, List.filterMap_cons, List.filter_cons,
        Option.isNone_some, List.append_assoc, List.singleton_append]
      simp
    | none =>
      simp only [msSingLoop, hj, ih]
      simp only [List.filterMap_cons, hj, List.filter_cons, Option.isNone_none,
        if_true, List.length_cons, Prod.mk.injEq, true_and]
      push_cast
      ring

/-- A key is absent from the zip of the keys with the rank column iff it
is absent from the original series (the rank column has the same
length as the series). -/
theorem lookup_zip_fst_eq_none (x : List (Gene × ℚ)) (rs : List ℚ)
    (hlen : x.length = rs.length) (j : Gene) :
    ((x.map Prod.fst).zip rs).lookup j = none ↔ x.lookup j = none := by
  induction x generalizing rs with
  | nil => simp
  | cons p rest ih =>
    cases rs with
    | nil => simp at hlen
    | cons r rrest =>
      have hlen2 : rest.length = rrest.length := by simpa using hlen
      simp only [List.map_cons, List.zip_cons_cons]
      cases hb : (j == p.1) with
      | false => simpa only [List.lookup, hb] using ih rrest hlen2
      | true => simp [List.lookup, hb]

/-! ## Claims -/

/-- C3: for every cell and every gene set, if none of the gene set's
members appear in the cell's expression vector (so the effective
signature length reaches zero), `_ms_sing` returns the NaN sentinel
(`none`) for the score — in particular not `some 0` — and for the MAD,
without raising. -/
theorem claim_C3_empty_signature_gives_nan (c : ℚ) (geneset : List Gene)
    (x : List (Gene × ℚ)) (rankup : Bool)
    (h : ∀ j ∈ geneset, x.lookup j = none) :
    (_ms_sing c geneset x "standard" rankup).total_score = none
    ∧ (_ms_sing c geneset x "standard" rankup).mad_up = none := by
  have hlen : (x.map Prod.fst).length = (rankMin rankup (x.map Prod.snd)).length := by
    simp [rankMin]
  have hsu : ∀ j ∈ geneset,
      ((x.map Prod.fst).zip (rankMin rankup (x.map Prod.snd))).lookup j = none := by
    intro j hj
    exact (lookup_zip_fst_eq_none x _ (by simpa using hlen) j).mpr (h j hj)
  have hfm : geneset.filterMap
      (fun j => ((x.map Prod.fst).zip (rankMin rankup (x.map Prod.snd))).lookup j) = [] := by
    rw [List.filterMap_eq_nil_iff]
    intro j hj
    simp [hsu j hj]
  simp only [_ms_sing, msSingLoop_eq, List.nil_append, hfm]
  constructor
  · simp [npMean, normalisation]
  · simp [scale_mad, npMedian]

/-- C3 witness: a gene set whose single member is absent from the cell. -/
theorem claim_C3_witness :
    (_ms_sing 1 ["zz"] [("g1", 5), ("g2", 3)] "standard" true).total_score = none
    ∧ (_ms_sing 1 ["zz"] [("g1", 5), ("g2", 3)] "standard" true).mad_up = none :=
  claim_C3_empty_signature_gives_nan 1 ["zz"] [("g1", 5), ("g2", 3)] true (by decide)

/-- C4: the per-cell scorer `_ms_sing` computes an effective signature
length equal to the gene set's size minus one per member absent from the
ranked index, collects the rank values of the present members, feeds the
normalisation with the cell's observed-gene count, the collected ranks,
their mean (the raw score) and the effective length, returns
`total_score` = that normalised score minus 0.5, and returns the
(scaled) median absolute deviation of the collected ranks. -/
theorem claim_C4_ms_sing_components (c : ℚ) (geneset : List Gene)
    (x : List (Gene × ℚ)) (norm_method : String) (rankup : Bool) :
    (msSingLoop ((x.map Prod.fst).zip (rankMin rankup (x.map Prod.snd)))
        geneset [] (geneset.length : Int)
      = (geneset.filterMap
           (fun j => ((x.map Prod.fst).zip (rankMin rankup (x.map Prod.snd))).lookup j),
         (geneset.length : Int)
           - ((geneset.filter
                (fun j => (((x.map Prod.fst).zip
                    (rankMin rankup (x.map Prod.snd))).lookup j).isNone)).length : Int)))
    ∧ (_ms_sing c geneset x norm_method rankup).total_score
        = (normalisation norm_method x.length
             (geneset.filterMap
               (fun j => ((x.map Prod.fst).zip (rankMin rankup (x.map Prod.snd))).lookup j))
             (npMean (geneset.filterMap
               (fun j => ((x.map Prod.fst).zip (rankMin rankup (x.map Prod.snd))).lookup j)))
             ((geneset.length : Int)
               - ((geneset.filter
                    (fun j => (((x.map Prod.fst).zip
                        (rankMin rankup (x.map Prod.snd))).lookup j).isNone)).length : Int))).map
            (fun v => v - 1/2)
    ∧ (_ms_sing c geneset x norm_method rankup).mad_up
        = scale_mad c (geneset.filterMap
            (fun j => ((x.map Prod.fst).zip (rankMin rankup (x.map Prod.snd))).lookup j)) := by
  refine ⟨by rw [msSingLoop_eq, List.nil_append], ?_, ?_⟩
  · simp only [_ms_sing, msSingLoop_eq, List.nil_append]
  · simp only [_ms_sing, msSingLoop_eq, List.nil_append]

/-- C9: whenever the noise-injection configuration is requested
(normalization method `average` with positive `noise_trials`), the
extraction step `_get_cell_data` raises the explicit `not implemented`
error instead of proceeding, and so does the legacy scoring loop at its
first cell. -/
theorem claim_C9_noise_path_raises (sm : AnnData) (cell_ix : Nat)
    (noise_trials : Int) (method_params : List (String × String)) (ranked : Bool)
    (c : ℚ) (gsu gsd : Option (List Gene))
    (h1 : method_params.lookup "normalization" = some "average")
    (h2 : 0 < noise_trials) :
    _get_cell_data sm cell_ix noise_trials method_params ranked
      = .error "ValueError: not implemented"
    ∧ (sm.obs ≠ [] →
        _score_all_cells_at_once c gsu gsd sm noise_trials "average"
          = .error "ValueError: not implemented") := by
  constructor
  · unfold _get_cell_data
    rw [if_pos ⟨h1, h2⟩]
  · intro hne
    obtain ⟨o, rest, hobs⟩ : ∃ o rest, sm.obs = o :: rest := by
      cases hobs : sm.obs with
      | nil => exact absurd hobs hne
      | cons o rest => exact ⟨o, rest, rfl⟩
    unfold _score_all_cells_at_once
    rw [hobs]
    unfold scoreCellsLoop
    rw [if_pos ⟨rfl, h2⟩]

/-- C9 witness: one cell, `normalization = average`, one noise trial. -/
theorem claim_C9_witness :
    _get_cell_data ⟨[[1]], [⟨"c1", []⟩], ["g1"]⟩ 0 1 [("normalization", "average")] true
      = .error "ValueError: not implemented" :=
  (claim_C9_noise_path_raises ⟨[[1]], [⟨"c1", []⟩], ["g1"]⟩ 0 1
    [("normalization", "average")] true 1 none none rfl (by norm_num)).1

/-- C10: when the up-front validation of the legacy entry point
`score_cells` reports an error, the function returns the empty tuple —
a falsy sentinel distinct from Python None, from any string such as
"ERROR", and from a raised exception — and the metadata is untouched:
the `key_added` column is never written. -/
theorem claim_C10_score_cells_error_empty_tuple (c : ℚ) (check : String)
    (smooth : List (List ℚ) → List (List ℚ)) (adata : AnnData)
    (gsu gsd : Option (List Gene)) (key_added : String)
    (noise_trials : Int) (mode : String) (h : check = "ERROR") :
    score_cells c check smooth adata gsu gsd key_added noise_trials mode
      = (.ok .emptyTuple, .plain adata.obs)
    ∧ ScoreCellsOut.emptyTuple ≠ ScoreCellsOut.pynone
    ∧ (∀ s, ScoreCellsOut.emptyTuple ≠ ScoreCellsOut.strval s) := by
  refine ⟨?_, by simp, fun s => by simp⟩
  unfold score_cells
  rw [if_pos h]

/-- C10 witness at a concrete failing validation. -/
theorem claim_C10_witness :
    score_cells 1 "ERROR" id ⟨[[1]], [⟨"c1", []⟩], ["g1"]⟩ (some ["g1"]) none
        "score" 0 "theoretical"
      = (.ok .emptyTuple, .plain [⟨"c1", []⟩]) :=
  (claim_C10_score_cells_error_empty_tuple 1 "ERROR" id ⟨[[1]], [⟨"c1", []⟩], ["g1"]⟩
    (some ["g1"]) none "score" 0 "theoretical" rfl).1

/-- C2 (code bug): a dict grouping directive is NOT rejected with the
`ERROR: dict not implemented` sentinel — the source's guard compares
`type(groupby)` with a dict value, which is always False, so the call
falls through with an empty task list and `pd.concat` raises
`ValueError`. The sentinel of line 132 is never returned. -/
theorem claim_C2_dict_branch_unreachable (scorefun : ScoreFun)
    (smooth : List (List ℚ) → List (List ℚ)) (adata : AnnData) (gs : List GeneSet)
    (d : List (String × Int)) (score_method : String)
    (method_params : List (String × String)) (noise_trials : Int) (ranked : Bool) :
    _proc_data scorefun smooth adata gs (.dict d) score_method method_params
        noise_trials ranked
      = .error "ValueError: No objects to concatenate"
    ∧ ∀ s, _proc_data scorefun smooth adata gs (.dict d) score_method method_params
        noise_trials ranked ≠ .ok (.sentinel s) := by
  exact ⟨rfl, fun s => by simp [_proc_data]⟩

/-- C1 (code bug), evaluated at a concrete failing input: with a valid
population (validation passes) and a list grouping directive,
`_proc_data` hands the bare string "ERROR" to `with_gene_sets`, which
does not check it and passes it to `DataFrame.join`, so the top-level
call throws instead of returning the "ERROR" sentinel; the metadata is
left unchanged (no partial score columns). -/
theorem claim_C1_groupby_list_throws :
    with_gene_sets (fun _ _ _ _ _ => 0) id "OK"
        ⟨[[1]], [⟨"c1", []⟩], ["g1"]⟩ [⟨"s1", ["g1"]⟩] (.list ["a", "b"])
        "singscore" [] 0 true
      = (.error "AttributeError: join expects DataFrame-likes, got str",
         .plain [⟨"c1", []⟩])
    ∧ (Except.error "AttributeError: join expects DataFrame-likes, got str"
        ≠ (Except.ok (WGSRes.strval "ERROR") : Except String WGSRes)) := by
  exact ⟨rfl, by simp⟩

/-- The min-tie rank formula: entry i of the ascending min-rank column
is 1 plus the number of strictly smaller values. -/
theorem rankMin_getD (l : List ℚ) (i : Nat) (hi : i < l.length) :
    (rankMin true l).getD i 0
      = 1 + ((l.filter (fun w => decide (w < l.getD i 0))).length : ℚ) := by
  have hi2 : i < (rankMin true l).length := by simpa [rankMin] using hi
  rw [List.getD_eq_getElem _ _ hi2, List.getD_eq_getElem _ _ hi]
  simp [rankMin]

/-- `np.max` of a series is NaN exactly for the empty series. -/
theorem seriesMax_eq_none_iff (l : List ℚ) : seriesMax l = none ↔ l = [] := by
  cases l <;> simp [seriesMax]

/-- C7: for every cell frame extracted with `ranked = true`, the
ascending rank column follows pandas' minimum tie rule — every entry
equals 1 plus the number of strictly smaller counts, so tied counts
share the lowest rank — and the descending column satisfies
`uprank + dnrank = max(uprank)` at every gene of the cell. -/
theorem claim_C7_rank_min_and_invariant (sm : AnnData) (cell_ix : Nat)
    (noise_trials : Int) (method_params : List (String × String)) (df : CellDF)
    (h : _get_cell_data sm cell_ix noise_trials method_params true = .ok df) :
    ∃ ur dr, df.uprank = some ur ∧ df.dnrank = some dr
    ∧ ur.length = df.counts.length ∧ dr.length = ur.length
    ∧ (∀ i, i < df.counts.length →
        ur.getD i 0
          = 1 + ((df.counts.filter (fun w => decide (w < df.counts.getD i 0))).length : ℚ))
    ∧ (∀ i j, i < df.counts.length → j < df.counts.length →
        df.counts.getD i 0 = df.counts.getD j 0 → ur.getD i 0 = ur.getD j 0)
    ∧ (∀ i, i < ur.length → some (ur.getD i 0 + dr.getD i 0) = seriesMax ur) := by
  unfold _get_cell_data at h
  split at h
  · exact absurd h (by simp)
  · rw [if_pos rfl] at h
    have h2 := (Except.ok.injEq _ _).mp h
    subst h2
    dsimp only
    refine ⟨rankMin true ((cellCounts sm cell_ix).map Prod.snd), _, rfl, rfl,
      by simp [rankMin], ?_, ?_, ?_, ?_⟩
    · cases hmax : seriesMax (rankMin true ((cellCounts sm cell_ix).map Prod.snd)) with
      | none => rw [(seriesMax_eq_none_iff _).mp hmax]
      | some m => simp [hmax]
    · intro i hi
      exact rankMin_getD _ i hi
    · intro i j hi hj hij
      rw [rankMin_getD _ i hi, rankMin_getD _ j hj, hij]
    · intro i hi
      cases hmax : seriesMax (rankMin true ((cellCounts sm cell_ix).map Prod.snd)) with
      | none =>
        rw [(seriesMax_eq_none_iff _).mp hmax] at hi
        simp at hi
      | some m =>
        simp only [hmax]
        have hi2 : i < ((rankMin true ((cellCounts sm cell_ix).map Prod.snd)).map
            (fun r => m - r)).length := by simpa using hi
        rw [List.getD_eq_getElem _ _ hi, List.getD_eq_getElem _ _ hi2]
        simp only [List.getElem_map]
        congr 1
        ring

/-- C7 witness: a cell with the single nonzero count 5 — uprank [1],
dnrank [0], max uprank 1. -/
theorem claim_C7_witness :
    ∃ ur dr,
      (CellDF.mk ["a"] [5] (some [1]) (some [0])).uprank = some ur
    ∧ (CellDF.mk ["a"] [5] (some [1]) (some [0])).dnrank = some dr
    ∧ ur.length = (CellDF.mk ["a"] [5] (some [1]) (some [0])).counts.length
    ∧ dr.length = ur.length
    ∧ (∀ i, i < (CellDF.mk ["a"] [5] (some [1]) (some [0])).counts.length →
        ur.getD i 0 = 1 + (((CellDF.mk ["a"] [5] (some [1]) (some [0])).counts.filter
            (fun w => decide (w < (CellDF.mk ["a"] [5] (some [1]) (some [0])).counts.getD i 0))).length : ℚ))
    ∧ (∀ i j, i < (CellDF.mk ["a"] [5] (some [1]) (some [0])).counts.length →
        j < (CellDF.mk ["a"] [5] (some [1]) (some [0])).counts.length →
        (CellDF.mk ["a"] [5] (some [1]) (some [0])).counts.getD i 0
          = (CellDF.mk ["a"] [5] (some [1]) (some [0])).counts.getD j 0 →
        ur.getD i 0 = ur.getD j 0)
    ∧ (∀ i, i < ur.length → some (ur.getD i 0 + dr.getD i 0) = seriesMax ur) :=
  claim_C7_rank_min_and_invariant ⟨[[5]], [⟨"c1", []⟩], ["a"]⟩ 0 0 [] _
    (by simp [_get_cell_data, cellCounts, rankMin, seriesMax])

/-- Every record produced by the legacy per-cell loop with both gene
sets supplied carries `up_score`, `dn_score`, `mad_up` and `mad_down`,
and its `total_score` is the (NaN-propagating) sum of the sub-scores. -/
theorem scoreCellsLoop_both (c : ℚ) (gu gd : List Gene) (sm : AnnData)
    (noise_trials : Int) (mode : String) :
    ∀ (obs : List ObsRow) (ix : Nat) (recs : List (List (String × Option ℚ) × Barcode)),
      scoreCellsLoop c (some gu) (some gd) sm noise_trials mode ix obs = .ok recs →
      ∀ r ∈ recs, ∃ u d,
        r.1.lookup "up_score" = some u ∧ r.1.lookup "dn_score" = some d
        ∧ r.1.lookup "total_score" = some (optAdd u d)
        ∧ (r.1.lookup "mad_up").isSome ∧ (r.1.lookup "mad_down").isSome := by
  intro obs
  induction obs with
  | nil =>
    intro ix recs h r hr
    simp only [scoreCellsLoop] at h
    obtain rfl := (Except.ok.injEq _ _).mp h
    simp at hr
  | cons o rest ih =>
    intro ix recs h r hr
    simp only [scoreCellsLoop, handle_up_down] at h
    split at h
    · exact absurd h (by simp)
    · cases hrec : scoreCellsLoop c (some gu) (some gd) sm noise_trials mode (ix + 1) rest with
      | error e => rw [hrec] at h; exact absurd h (by simp)
      | ok rs =>
        rw [hrec] at h
        obtain rfl := (Except.ok.injEq _ _).mp h
        rcases List.mem_cons.mp hr with hr1 | hr2
        · subst hr1
          refine ⟨(_ms_sing c gu (cellCounts sm ix) "standard" true).total_score,
                  (_ms_sing c gd (cellCounts sm ix) "standard" false).total_score,
                  ?_, ?_, ?_, ?_, ?_⟩ <;> simp [List.lookup]
        · exact ih (ix + 1) rs hrec r hr2

/-- C5: for every cell, when both an up and a down gene set are supplied
to the legacy scoring path, the returned record's `total_score` is the
sum of the `up_score` and `dn_score` sub-scores, and both sub-scores and
both dispersion statistics (`mad_up`, `mad_down`) are present as
separate fields. -/
theorem claim_C5_both_sets_total_is_sum (c : ℚ) (gu gd : List Gene)
    (sm : AnnData) (noise_trials : Int) (mode : String)
    (recs : List (List (String × Option ℚ) × Barcode))
    (h : _score_all_cells_at_once c (some gu) (some gd) sm noise_trials mode = .ok recs)
    (r : List (String × Option ℚ) × Barcode) (hr : r ∈ recs) :
    ∃ u d, r.1.lookup "up_score" = some u ∧ r.1.lookup "dn_score" = some d
    ∧ r.1.lookup "total_score" = some (optAdd u d)
    ∧ (r.1.lookup "mad_up").isSome ∧ (r.1.lookup "mad_down").isSome :=
  scoreCellsLoop_both c gu gd sm noise_trials mode sm.obs 0 recs h r hr

/-- C5 witness: one cell with only zero counts, scored against an up and
a down set: the record is computed concretely and the theorem applies. -/
theorem claim_C5_witness :
    ∃ u d,
      (([("total_score", (none : Option ℚ)), ("mad_up", none), ("mad_down", none),
         ("up_score", none), ("dn_score", none)], ("c1" : Barcode)) :
          List (String × Option ℚ) × Barcode).1.lookup "up_score" = some u
    ∧ (([("total_score", (none : Option ℚ)), ("mad_up", none), ("mad_down", none),
         ("up_score", none), ("dn_score", none)], ("c1" : Barcode)) :
          List (String × Option ℚ) × Barcode).1.lookup "dn_score" = some d
    ∧ (([("total_score", (none : Option ℚ)), ("mad_up", none), ("mad_down", none),
         ("up_score", none), ("dn_score", none)], ("c1" : Barcode)) :
          List (String × Option ℚ) × Barcode).1.lookup "total_score" = some (optAdd u d)
    ∧ ((([("total_score", (none : Option ℚ)), ("mad_up", none), ("mad_down", none),
         ("up_score", none), ("dn_score", none)], ("c1" : Barcode)) :
          List (String × Option ℚ) × Barcode).1.lookup "mad_up").isSome
    ∧ ((([("total_score", (none : Option ℚ)), ("mad_up", none), ("mad_down", none),
         ("up_score", none), ("dn_score", none)], ("c1" : Barcode)) :
          List (String × Option ℚ) × Barcode).1.lookup "mad_down").isSome :=
  claim_C5_both_sets_total_is_sum 1 ["g1"] ["g1"]
    ⟨[[0]], [⟨"c1", []⟩], ["g1"]⟩ 0 "theoretical" _ rfl _
    (by simp [_ms_sing, cellCounts, msSingLoop, npMean, normalisation, scale_mad,
      npMedian, rankMin, optAdd, List.lookup])

/-- Pointwise sums of two maps split into the two sums. -/
theorem sum_map_add_nat {α : Type} (l : List α) (f g : α → Nat) :
    (l.map (fun a => f a + g a)).sum = (l.map f).sum + (l.map g).sum := by
  induction l with
  | nil => rfl
  | cons a t ih =>
    simp only [List.map_cons, List.sum_cons, ih]
    omega

/-- The sum of a 0/1 indicator over a list counts the satisfying items. -/
theorem sum_indicator_eq_countP (cs : List String) (q : String → Bool) :
    (cs.map (fun ci => if q ci then 1 else 0)).sum = cs.countP q := by
  induction cs with
  | nil => rfl
  | cons a t ih =>
    simp only [List.map_cons, List.sum_cons, List.countP_cons, ih]
    cases hq : q a
    · simp
    · simp
      omega

/-- Partition counting: when the category list `cs` holds each label at
most once and covers the label of every row satisfying `P`, counting
`P ∧ label = ci` per category and summing recovers the count of `P`. -/
theorem sum_countP_by_label (col : String) (P : ObsRow → Bool) (l : List ObsRow)
    (cs : List String) (hnd : cs.Nodup)
    (hmem : ∀ o ∈ l, P o = true → o.label col ∈ cs) :
    (cs.map (fun ci => l.countP (fun o => P o && decide (o.label col = ci)))).sum
      = l.countP P := by
  induction l with
  | nil => simp
  | cons o t ih =>
    have hmt : ∀ o2 ∈ t, P o2 = true → o2.label col ∈ cs :=
      fun o2 h2 hp => hmem o2 (List.mem_cons_of_mem _ h2) hp
    simp only [List.countP_cons]
    rw [sum_map_add_nat, ih hmt]
    have hind : (cs.map (fun ci =>
        if (P o && decide (o.label col = ci)) = true then 1 else 0)).sum
        = if P o = true then 1 else 0 := by
      cases hP : P o with
      | false => simp
      | true =>
        simp only [Bool.true_and]
        rw [sum_indicator_eq_countP]
        have hc : cs.countP (fun ci => decide (o.label col = ci))
            = cs.count (o.label col) := by
          rw [List.count_eq_countP]
          refine List.countP_congr (fun ci _ => ?_)
          simp only [decide_eq_true_eq, beq_iff_eq]
          exact eq_comm
        rw [hc, List.count_eq_one_of_mem hnd (hmem o (List.mem_cons_self o t) hP)]
        simp
    rw [hind]

/-- C8: the Group Partitioner yields one sub-population per distinct
value of the grouping column, the group sizes sum to the population
size, and different groups share no cell row: disjoint and exhaustive. -/
theorem claim_C8_groups_partition (adata : AnnData) (col : String)
    (_hcol : ∀ o ∈ adata.obs, (o.labels.lookup col).isSome) :
    (groupby_groups adata col).length
        = ((adata.obs.map (fun o => o.label col)).dedup).length
    ∧ (groupby_groups adata col).map Prod.snd
        = (adata.obs.map (fun o => o.label col)).dedup
    ∧ ((groupby_groups adata col).map (fun g => g.1.obs.length)).sum
        = adata.obs.length
    ∧ ((groupby_groups adata col).map (fun g => g.1.obs)).Pairwise
        (fun A B => ∀ o ∈ A, o ∉ B) := by
  refine ⟨by simp [groupby_groups],
    by rw [groupby_groups, List.map_map]; exact List.map_id _, ?_, ?_⟩
  · rw [groupby_groups, List.map_map]
    have h1 : ((adata.obs.map (fun o => o.label col)).dedup).map
          ((fun g : AnnData × String => g.1.obs.length) ∘
            (fun ci => (adSubset adata col ci, ci)))
        = ((adata.obs.map (fun o => o.label col)).dedup).map
          (fun ci => adata.obs.countP
            (fun o => (fun _ => true) o && decide (o.label col = ci))) := by
      refine List.map_congr_left (fun ci _ => ?_)
      simp only [Function.comp, adSubset, Bool.true_and]
      rw [← List.countP_eq_length_filter]
    rw [h1, sum_countP_by_label col (fun _ => true) adata.obs _
        (adata.obs.map (fun o => o.label col)).nodup_dedup
        (fun o ho _ => List.mem_dedup.mpr (List.mem_map_of_mem _ ho))]
    simp [List.countP_true]
  · rw [groupby_groups, List.map_map]
    have hnd0 : ((adata.obs.map (fun o => o.label col)).dedup).Nodup :=
      (adata.obs.map (fun o => o.label col)).nodup_dedup
    have hnd : ((adata.obs.map (fun o => o.label col)).dedup).Pairwise
        (fun a b => a ≠ b) := hnd0
    refine List.Pairwise.map _ ?_ hnd
    intro a b hab o hoa hob
    simp only [Function.comp, adSubset, List.mem_filter,
      decide_eq_true_eq] at hoa hob
    exact hab (hoa.2 ▸ hob.2)

/-- C8 witness: three cells in two categories (sizes 2 and 1). -/
theorem claim_C8_witness :
    (groupby_groups ⟨[[0], [0], [0]],
        [⟨"c1", [("g", "a")]⟩, ⟨"c2", [("g", "b")]⟩, ⟨"c3", [("g", "a")]⟩],
        ["x"]⟩ "g").length
      = (((⟨[[0], [0], [0]],
          [⟨"c1", [("g", "a")]⟩, ⟨"c2", [("g", "b")]⟩, ⟨"c3", [("g", "a")]⟩],
          ["x"]⟩ : AnnData).obs.map (fun o => o.label "g")).dedup).length
    ∧ (groupby_groups ⟨[[0], [0], [0]],
        [⟨"c1", [("g", "a")]⟩, ⟨"c2", [("g", "b")]⟩, ⟨"c3", [("g", "a")]⟩],
        ["x"]⟩ "g").map Prod.snd
      = (((⟨[[0], [0], [0]],
          [⟨"c1", [("g", "a")]⟩, ⟨"c2", [("g", "b")]⟩, ⟨"c3", [("g", "a")]⟩],
          ["x"]⟩ : AnnData).obs.map (fun o => o.label "g")).dedup)
    ∧ ((groupby_groups ⟨[[0], [0], [0]],
        [⟨"c1", [("g", "a")]⟩, ⟨"c2", [("g", "b")]⟩, ⟨"c3", [("g", "a")]⟩],
        ["x"]⟩ "g").map (fun g => g.1.obs.length)).sum
      = (⟨[[0], [0], [0]],
          [⟨"c1", [("g", "a")]⟩, ⟨"c2", [("g", "b")]⟩, ⟨"c3", [("g", "a")]⟩],
          ["x"]⟩ : AnnData).obs.length
    ∧ ((groupby_groups ⟨[[0], [0], [0]],
        [⟨"c1", [("g", "a")]⟩, ⟨"c2", [("g", "b")]⟩, ⟨"c3", [("g", "a")]⟩],
        ["x"]⟩ "g").map (fun g => g.1.obs)).Pairwise
        (fun A B => ∀ o ∈ A, o ∉ B) :=
  claim_C8_groups_partition
    ⟨[[0], [0], [0]],
      [⟨"c1", [("g", "a")]⟩, ⟨"c2", [("g", "b")]⟩, ⟨"c3", [("g", "a")]⟩],
      ["x"]⟩ "g" (by decide)

/-- A successful per-group scoring run indexes its result frame by the
group's barcodes, one row per cell, in cell order. -/
theorem scoreSetsLoop_index (scorefun : ScoreFun) (sm : AnnData) (gs : List GeneSet)
    (score_method : String) (method_params : List (String × String))
    (noise_trials : Int) (ranked : Bool) :
    ∀ (obs : List ObsRow) (ix : Nat) (t : ScoreDF),
      scoreSetsLoop scorefun sm gs score_method method_params noise_trials ranked
          ix obs = .ok t →
      t.map Prod.fst = obs.map (fun o => o.barcode) := by
  intro obs
  induction obs with
  | nil =>
    intro ix t h
    simp only [scoreSetsLoop] at h
    obtain rfl := (Except.ok.injEq _ _).mp h
    simp
  | cons o rest ih =>
    intro ix t h
    simp only [scoreSetsLoop] at h
    cases h1 : _get_cell_data sm ix noise_trials method_params ranked with
    | error e => rw [h1] at h; exact absurd h (by simp)
    | ok df =>
      rw [h1] at h
      cases h2 : scoreSetsLoop scorefun sm gs score_method method_params noise_trials
          ranked (ix + 1) rest with
      | error e => rw [h2] at h; exact absurd h (by simp)
      | ok rs =>
        rw [h2] at h
        obtain rfl := (Except.ok.injEq _ _).mp h
        simp only [List.map_cons]
        rw [ih (ix + 1) rs h2]

/-- A successful dispatch over the group list concatenates, per group in
order, one score row per cell of that group. -/
theorem procGroupsLoop_index (scorefun : ScoreFun)
    (smooth : List (List ℚ) → List (List ℚ)) (gs : List GeneSet)
    (score_method : String) (method_params : List (String × String))
    (noise_trials : Int) (ranked : Bool) :
    ∀ (gl : List (AnnData × String)) (ts : List ScoreDF),
      procGroupsLoop scorefun smooth gs score_method method_params noise_trials
          ranked gl = .ok ts →
      ts.flatten.map Prod.fst = gl.flatMap (fun g => g.1.obs.map (fun o => o.barcode)) := by
  intro gl
  induction gl with
  | nil =>
    intro ts h
    simp only [procGroupsLoop] at h
    obtain rfl := (Except.ok.injEq _ _).mp h
    simp
  | cons g rest ih =>
    obtain ⟨qi, ci⟩ := g
    intro ts h
    simp only [procGroupsLoop] at h
    cases h1 : _score_all_cells_all_sets scorefun (_smooth_out smooth qi) gs
        score_method method_params noise_trials ranked with
    | error e => rw [h1] at h; exact absurd h (by simp)
    | ok t0 =>
      rw [h1] at h
      cases h2 : procGroupsLoop scorefun smooth gs score_method method_params
          noise_trials ranked rest with
      | error e => rw [h2] at h; exact absurd h (by simp)
      | ok ts0 =>
        rw [h2] at h
        obtain rfl := (Except.ok.injEq _ _).mp h
        have ht0 : t0.map Prod.fst = qi.obs.map (fun o => o.barcode) :=
          scoreSetsLoop_index scorefun (_smooth_out smooth qi) gs score_method
            method_params noise_trials ranked (_smooth_out smooth qi).obs 0 t0 h1
        simp only [List.flatten_cons, List.flatMap_cons, List.map_append]
        rw [ht0, ih ts0 h2]

/-- countP distributes over flatMap as a sum of per-piece counts. -/
theorem countP_flatMap_sum {α β : Type} (l : List α) (f : α → List β) (p : β → Bool) :
    (l.flatMap f).countP p = (l.map (fun a => (f a).countP p)).sum := by
  induction l with
  | nil => simp
  | cons a t ih => simp [List.flatMap_cons, List.countP_append, ih]

/-- Under unique barcodes, the concatenation of the per-category frames
mentions each cell's barcode exactly once. -/
theorem grouped_index_count (adata : AnnData) (col : String)
    (hnodup : (adata.obs.map (fun o => o.barcode)).Nodup)
    (o : ObsRow) (ho : o ∈ adata.obs) :
    (((adata.obs.map (fun o2 => o2.label col)).dedup).flatMap
        (fun ci => (adata.obs.filter (fun o2 => decide (o2.label col = ci))).map
          (fun o2 => o2.barcode))).countP (fun bc => decide (bc = o.barcode)) = 1 := by
  rw [countP_flatMap_sum]
  have hterm : ((adata.obs.map (fun o2 => o2.label col)).dedup).map
      (fun ci => ((adata.obs.filter (fun o2 => decide (o2.label col = ci))).map
        (fun o2 => o2.barcode)).countP (fun bc => decide (bc = o.barcode)))
      = ((adata.obs.map (fun o2 => o2.label col)).dedup).map
        (fun ci => adata.obs.countP (fun o2 =>
          decide (o2.barcode = o.barcode) && decide (o2.label col = ci))) := by
    refine List.map_congr_left (fun ci _ => ?_)
    rw [List.countP_map, List.countP_filter]
    rfl
  rw [hterm, sum_countP_by_label col (fun o2 => decide (o2.barcode = o.barcode))
      adata.obs _ ((adata.obs.map (fun o2 => o2.label col)).nodup_dedup)
      (fun o2 h2 _ => List.mem_dedup.mpr (List.mem_map_of_mem _ h2))]
  have hmapP : adata.obs.countP (fun o2 => decide (o2.barcode = o.barcode))
      = (adata.obs.map (fun o2 => o2.barcode)).countP
          (fun bc => decide (bc = o.barcode)) := by
    rw [List.countP_map]
    rfl
  rw [hmapP]
  have hcnt : (adata.obs.map (fun o2 => o2.barcode)).countP
      (fun bc => decide (bc = o.barcode))
      = (adata.obs.map (fun o2 => o2.barcode)).count o.barcode := by
    rw [List.count_eq_countP]
    refine List.countP_congr (fun bc _ => ?_)
    simp only [decide_eq_true_eq, beq_iff_eq]
  rw [hcnt]
  exact List.count_eq_one_of_mem hnodup (List.mem_map_of_mem _ ho)

/-- When every cell's barcode matches exactly one score row, the left
join pairs each metadata row, in order, with its unique score row. -/
theorem leftJoin_exact (obs : List ObsRow) (t : ScoreDF)
    (h : ∀ o ∈ obs, (t.filter (fun r => decide (r.1 = o.barcode))).length = 1) :
    (leftJoin obs t).map Prod.fst = obs := by
  induction obs with
  | nil => rfl
  | cons o rest ih =>
    obtain ⟨r, hr⟩ := List.length_eq_one.mp (h o (List.mem_cons_self o rest))
    simp only [leftJoin, List.flatMap_cons]
    rw [hr]
    simp only [List.map_cons, List.map_nil, List.map_append]
    have := ih (fun o2 h2 => h o2 (List.mem_cons_of_mem _ h2))
    simp only [leftJoin] at this
    rw [this]
    rfl

/-- The left join never drops a metadata row, matched or not. -/
theorem leftJoin_keeps (obs : List ObsRow) (t : ScoreDF) (o : ObsRow)
    (ho : o ∈ obs) : ∃ e ∈ leftJoin obs t, e.1 = o := by
  revert ho
  induction obs with
  | nil => intro ho; simp at ho
  | cons o2 rest ih =>
    intro ho
    rcases List.mem_cons.mp ho with h1 | h2
    · subst h1
      simp only [leftJoin, List.flatMap_cons]
      cases hf : t.filter (fun r => decide (r.1 = o.barcode)) with
      | nil => exact ⟨(o, none), List.mem_append_left _ (by simp), rfl⟩
      | cons r rs =>
        exact ⟨(o, some r.2), List.mem_append_left _
          (List.mem_map.mpr ⟨r, by simp, rfl⟩), rfl⟩
    · obtain ⟨e, he, heq⟩ := ih h2
      refine ⟨e, ?_, heq⟩
      simp only [leftJoin, List.flatMap_cons]
      exact List.mem_append_right _ he

/-- C6: for a population with unique barcodes grouped by a column, a
successful `with_gene_sets` run produces a table with exactly one row
per input cell, in left-join correspondence with the original metadata
(the rows, projected to their metadata part, are the original obs rows
in order, so the row count is preserved); moreover the left join by
itself never drops a cell, even one with no scoring entry. -/
theorem claim_C6_one_row_per_cell (scorefun : ScoreFun)
    (smooth : List (List ℚ) → List (List ℚ)) (check : String) (adata : AnnData)
    (gs : List GeneSet) (col score_method : String)
    (method_params : List (String × String)) (noise_trials : Int) (ranked : Bool)
    (tbl : List (ObsRow × Option (List (String × ℚ)))) (st : WgsObs)
    (hnodup : (adata.obs.map (fun o => o.barcode)).Nodup)
    (_hcol : ∀ o ∈ adata.obs, (o.labels.lookup col).isSome)
    (h : with_gene_sets scorefun smooth check adata gs (.str col) score_method
          method_params noise_trials ranked = (.ok (.scored tbl), st)) :
    tbl.map Prod.fst = adata.obs ∧ tbl.length = adata.obs.length
    ∧ ∀ (obs2 : List ObsRow) (t2 : ScoreDF) (o : ObsRow), o ∈ obs2 →
        ∃ e ∈ leftJoin obs2 t2, e.1 = o := by
  unfold with_gene_sets at h
  split at h
  · simp at h
  · cases hp : _proc_data scorefun smooth adata gs (.str col) score_method
        method_params noise_trials ranked with
    | error e => rw [hp] at h; simp at h
    | ok po =>
      rw [hp] at h
      cases po with
      | sentinel s => simp at h
      | table t =>
        simp only [Prod.mk.injEq, Except.ok.injEq, WGSRes.scored.injEq] at h
        obtain ⟨rfl, -⟩ := h
        unfold _proc_data at hp
        dsimp only at hp
        cases hg : procGroupsLoop scorefun smooth gs score_method method_params
            noise_trials ranked (groupby_groups adata col) with
        | error e => rw [hg] at hp; simp at hp
        | ok ts =>
          rw [hg] at hp
          dsimp only at hp
          split at hp
          · exact absurd hp (by simp)
          · injection hp with hp1
            injection hp1 with hp2
            obtain rfl := hp2
            have hidx : ts.flatten.map Prod.fst
                = ((adata.obs.map (fun o2 => o2.label col)).dedup).flatMap
                    (fun ci => (adata.obs.filter
                      (fun o2 => decide (o2.label col = ci))).map
                      (fun o2 => o2.barcode)) := by
              rw [procGroupsLoop_index scorefun smooth gs score_method method_params
                  noise_trials ranked (groupby_groups adata col) ts hg]
              rw [groupby_groups, List.flatMap_map]
              rfl
            have hcount : ∀ o ∈ adata.obs,
                (ts.flatten.filter
                  (fun r => decide (r.1 = o.barcode))).length = 1 := by
              intro o ho
              rw [← List.countP_eq_length_filter]
              have : ts.flatten.countP (fun r => decide (r.1 = o.barcode))
                  = (ts.flatten.map Prod.fst).countP
                      (fun bc => decide (bc = o.barcode)) := by
                rw [List.countP_map]
                rfl
              rw [this, hidx]
              exact grouped_index_count adata col hnodup o ho
            have hmain := leftJoin_exact adata.obs ts.flatten hcount
            refine ⟨hmain, ?_, fun obs2 t2 o ho => leftJoin_keeps obs2 t2 o ho⟩
            calc (leftJoin adata.obs ts.flatten).length
                = ((leftJoin adata.obs ts.flatten).map Prod.fst).length :=
                  (List.length_map _ _).symm
              _ = adata.obs.length := by rw [hmain]

/-- C6 witness: two cells in two groups, constant scorefun, identity
smoothing: the joined table lists exactly the two metadata rows in
order. -/
theorem claim_C6_witness :
    ([(⟨"c1", [("g", "a")]⟩, some [("s", (0 : ℚ))]),
      (⟨"c2", [("g", "b")]⟩, some [("s", (0 : ℚ))])] :
        List (ObsRow × Option (List (String × ℚ)))).map Prod.fst
      = [⟨"c1", [("g", "a")]⟩, ⟨"c2", [("g", "b")]⟩] :=
  (claim_C6_one_row_per_cell (fun _ _ _ _ _ => 0) id "OK"
    ⟨[[0], [0]], [⟨"c1", [("g", "a")]⟩, ⟨"c2", [("g", "b")]⟩], ["x"]⟩
    [⟨"s", ["x"]⟩] "g" "singscore" [] 0 true _ _ (by decide) (by decide) rfl).1

end Gssnng
